import Mathlib

/-!
Shallow embedding of `src/game.js` (Dipayan-Ghose/Dice-Game).

The program is a callback-driven interactive dice game.  We embed it as a
small-step state machine: the session state (`Session`) carries the phase,
the dice pool, the two assigned dice, the pending commitment of the
commit-reveal fairness protocol, the produced roll values and the outcome.
Randomness (`crypto.randomBytes` and `Math.random`) is modelled as explicit
streams of pre-drawn values (`Rng`); the HMAC (`crypto.createHmac` over
sha3-256, an external library function) is modelled as an arbitrary
function parameter `hmacF : String → String → String`.

JavaScript's string-to-number conversions (`parseInt`, `parseFloat`,
`Number`/`isNaN`, `String.prototype.split`) are embedded as executable
functions over `List Char`, computing with exact integer arithmetic on the
parsed digits (JS floats are not modelled bit-exactly; only NaN-ness,
integrality and the parsed integer values matter, which is all the program
uses of them).
-/

/-- JavaScript whitespace (the ASCII subset relevant to the inputs handled
here), used by `trim`, `parseInt` and `parseFloat`. -/
def jsIsWS (c : Char) : Bool :=
  c = ' ' ∨ c = '\t' ∨ c = '\n' ∨ c = '\r'

/-- JS `String.prototype.trim`: drop leading and trailing whitespace. -/
def jsTrim (cs : List Char) : List Char :=
  ((cs.dropWhile jsIsWS).reverse.dropWhile jsIsWS).reverse

/-- Longest leading run of decimal digits. -/
def decDigits (cs : List Char) : List Char :=
  cs.takeWhile Char.isDigit

/-- Value of a list of decimal digits (most significant first). -/
def decValue (cs : List Char) : Nat :=
  cs.foldl (fun a c => 10 * a + (c.toNat - 48)) 0

/-- Value of a hexadecimal digit, `none` for a non-hex-digit. -/
def hexDigitValue? (c : Char) : Option Nat :=
  if c.isDigit then some (c.toNat - 48)
  else if 'a' ≤ c ∧ c ≤ 'f' then some (c.toNat - 87)
  else if 'A' ≤ c ∧ c ≤ 'F' then some (c.toNat - 55)
  else none

/-- Longest leading run of hexadecimal digits. -/
def hexDigits (cs : List Char) : List Char :=
  cs.takeWhile (fun c => (hexDigitValue? c).isSome)

/-- Value of a list of hexadecimal digits (most significant first). -/
def hexValue (cs : List Char) : Nat :=
  cs.foldl (fun a c => 16 * a + ((hexDigitValue? c).getD 0)) 0

/-- Magnitude part of JS `parseInt` (after whitespace and sign have been
consumed): a `0x`/`0X` prefix switches to base 16, otherwise the longest
decimal-digit run is taken; `none` models a `NaN` result (no digits). -/
def jsParseIntMag? (cs : List Char) : Option Nat :=
  match cs with
  | '0' :: x :: rest =>
    if x = 'x' ∨ x = 'X' then
      let hs := hexDigits rest
      if hs.isEmpty then none else some (hexValue hs)
    else some (decValue (decDigits ('0' :: x :: rest)))
  | _ =>
    let ds := decDigits cs
    if ds.isEmpty then none else some (decValue ds)

/-- JS `parseInt(s)` on a character list: skip leading whitespace, consume an
optional sign, then parse the magnitude; `none` models `NaN`. -/
def jsParseIntL? (cs : List Char) : Option Int :=
  match cs.dropWhile jsIsWS with
  | '-' :: rest => (jsParseIntMag? rest).map (fun n => -(n : Int))
  | '+' :: rest => (jsParseIntMag? rest).map (fun n => (n : Int))
  | cs1 => (jsParseIntMag? cs1).map (fun n => (n : Int))

/-- JS `parseInt(s)` on a string; `none` models `NaN`. -/
def jsParseInt? (s : String) : Option Int :=
  jsParseIntL? s.data

/-- Full-match recogniser for the exponent part of a JS decimal literal
(empty, or `e`/`E`, optional sign, at least one digit). -/
def expPart (cs : List Char) : Bool :=
  match cs with
  | [] => true
  | e :: rest =>
    if e = 'e' ∨ e = 'E' then
      let rest2 := match rest with
        | '+' :: r => r
        | '-' :: r => r
        | r => r
      ¬ rest2.isEmpty ∧ rest2.all Char.isDigit
    else false

/-- Full-match recogniser for an unsigned JS decimal literal:
`digits [. digits] [exp]` or `. digits [exp]`. -/
def unsignedDecLit (cs : List Char) : Bool :=
  let ip := decDigits cs
  let rest := cs.drop ip.length
  if ip.isEmpty then
    match rest with
    | '.' :: r =>
      let frac := decDigits r
      ¬ frac.isEmpty ∧ expPart (r.drop frac.length)
    | _ => false
  else
    match rest with
    | '.' :: r =>
      let frac := decDigits r
      expPart (r.drop frac.length)
    | r => expPart r

/-- Full-match recogniser for JS non-decimal numeric literals
(`0x`/`0o`/`0b` with at least one digit, no sign allowed). -/
def jsNonDecimal (cs : List Char) : Bool :=
  match cs with
  | '0' :: x :: rest =>
    if x = 'x' ∨ x = 'X' then ¬ rest.isEmpty ∧ rest.all (fun c => (hexDigitValue? c).isSome)
    else if x = 'o' ∨ x = 'O' then ¬ rest.isEmpty ∧ rest.all (fun c => '0' ≤ c ∧ c ≤ '7')
    else if x = 'b' ∨ x = 'B' then ¬ rest.isEmpty ∧ rest.all (fun c => c = '0' ∨ c = '1')
    else false
  | _ => false

/-- Signed body of a JS string-numeric literal: `Infinity` or an unsigned
decimal literal. -/
def jsStrNumericBody (cs : List Char) : Bool :=
  if cs = "Infinity".data then true else unsignedDecLit cs

/-- JS `isNaN(s)` for a string argument: `Number(s)` is `NaN` exactly when
the trimmed string is nonempty and is not a numeric literal. -/
def jsNumberIsNaN (s : String) : Bool :=
  let cs := jsTrim s.data
  if cs.isEmpty then false
  else if jsNonDecimal cs then false
  else match cs with
    | '+' :: rest => ¬ jsStrNumericBody rest
    | '-' :: rest => ¬ jsStrNumericBody rest
    | _ => ¬ jsStrNumericBody cs

/-- Leading exponent part for `parseFloat` (`e`/`E`, optional sign, digits);
`none` when no well-formed exponent starts here. -/
def expValue? (cs : List Char) : Option Int :=
  match cs with
  | e :: rest =>
    if e = 'e' ∨ e = 'E' then
      match rest with
      | '+' :: r => let ds := decDigits r; if ds.isEmpty then none else some ((decValue ds : Int))
      | '-' :: r => let ds := decDigits r; if ds.isEmpty then none else some (-(decValue ds : Int))
      | r => let ds := decDigits r; if ds.isEmpty then none else some ((decValue ds : Int))
    else none
  | [] => none

/-- Whether `Number.isInteger(parseFloat(cs))` holds, for the part after
whitespace and sign.  `parseFloat` takes the longest decimal-literal prefix
`ip [. frac] [exp]`; its exact value is `N * 10 ^ (exp - frac.length)` with
`N` the digits of `ip ++ frac` read as an integer.  An `Infinity` value is
not an integer, a `NaN` parse (no digits at all) is not an integer, and the
parsed value is an integer exactly when the effective exponent is
nonnegative or `N` is divisible by the remaining power of ten. -/
def jsParseFloatIsIntCore (cs : List Char) : Bool :=
  if "Infinity".data.isPrefixOf cs then false
  else
    let ip := decDigits cs
    let rest := cs.drop ip.length
    let fr : List Char × List Char := match rest with
      | '.' :: r => (decDigits r, r.drop (decDigits r).length)
      | r => ([], r)
    if ip.isEmpty ∧ fr.1.isEmpty then false
    else
      let n := decValue (ip ++ fr.1)
      let e : Int := (expValue? fr.2).getD 0 - fr.1.length
      if 0 ≤ e then true else n % (10 ^ (-e).toNat) = 0

/-- Whether `Number.isInteger(parseFloat(s))` holds. -/
def jsParseFloatIsInt (s : String) : Bool :=
  match s.data.dropWhile jsIsWS with
  | '-' :: rest => jsParseFloatIsIntCore rest
  | '+' :: rest => jsParseFloatIsIntCore rest
  | cs => jsParseFloatIsIntCore cs

example : jsParseInt? "1abc" = some 1 := by decide
example : jsParseInt? "abc" = none := by decide
example : jsParseInt? " -12x" = some (-12) := by decide
example : jsParseInt? "0x10" = some 16 := by decide
example : jsNumberIsNaN "abc" = true := by decide
example : jsNumberIsNaN "3" = false := by decide
example : jsNumberIsNaN "0.5" = false := by decide
example : jsNumberIsNaN "1,2" = true := by decide
example : jsParseFloatIsInt "3" = true := by decide
example : jsParseFloatIsInt "0.5" = false := by decide
example : jsParseFloatIsInt "1.5e1" = true := by decide

/-- Result of `parseIntegerInput` in `game.js`.  The function returns `null`
for rejected input and an integer otherwise; on inputs such as `".0"` the
final `parseInt` yields `NaN`, which passes both range checks (`NaN < 0` and
`NaN > 5` are false in JS) and is returned, so a `nan` result is possible
and is distinct from rejection. -/
inductive ParseResult where
  | null
  | nan
  | val (n : Nat)
deriving DecidableEq, Repr

/-- `DiceGame.parseIntegerInput` (game.js lines 184-195): reject empty
input, comma-containing input, input whose `Number` conversion is `NaN`,
input whose `parseFloat` value is not an integer, and parsed values outside
`[0, 5]`; otherwise return `parseInt(input)`.  The guard `v < 0 ∨ v > 5`
ensures a returned value is in `[0, 5]`, so it is stored as a `Nat`. -/
def parseIntegerInput (input : String) : ParseResult :=
  if input.data.isEmpty ∨ input.data.contains ',' ∨ jsNumberIsNaN input ∨ ¬ jsParseFloatIsInt input then
    ParseResult.null
  else
    match jsParseInt? input with
    | none => ParseResult.nan
    | some v => if v < 0 ∨ v > 5 then ParseResult.null else ParseResult.val v.toNat

/-- JS `String.prototype.split(',')` on a character list: always returns
one part more than the number of commas (splitting the empty string gives
one empty part). -/
def splitOnComma (cs : List Char) : List (List Char) :=
  match cs with
  | [] => [[]]
  | c :: rest =>
    let r := splitOnComma rest
    if c = ',' then [] :: r
    else
      match r with
      | [] => [[c]]
      | h :: t => (c :: h) :: t

/-- `DiceGame.validateDiceInput` (game.js lines 65-68): split the input on
commas, `parseInt` each trimmed part, and require at least 3 parts, all of
which parse to a non-`NaN` value (for a non-`NaN` `parseInt` result,
`Number.isInteger` is always true, so non-`NaN`-ness is the whole check). -/
def validateDiceInput (input : String) : Bool :=
  let vals := (splitOnComma input.data).map (fun p => jsParseIntL? (jsTrim p))
  decide (vals.length ≥ 3) && vals.all Option.isSome

/-- A die as in class `Dice` (game.js lines 4-15): an ordered list of
integer face values. -/
structure Dice where
  values : List Int
deriving DecidableEq, Repr

/-- `Dice.roll` (game.js lines 12-14): an independent uniform draw of an
index into `values`.  The drawn randomness is modelled as a `Nat` taken from
the `Math.random` stream; `r % length` is the uniformly drawn index. -/
def Dice.roll (d : Dice) (r : Nat) : Int :=
  d.values.getD (r % d.values.length) 0

/-- The hardcoded dice preset constructed in `startGame`
(game.js lines 47-51). -/
def presetDice : List Dice :=
  [⟨[2, 2, 4, 4, 9, 9]⟩, ⟨[1, 1, 6, 6, 8, 8]⟩, ⟨[3, 3, 5, 5, 7, 7]⟩]

/-- Result of a finished round. -/
inductive Outcome where
  | userWins
  | compWins
deriving DecidableEq, Repr

/-- The outcome comparison at the end of `playRound`
(game.js lines 174-178): `if (userRoll > compRoll)` the user wins, else
(including ties) the computer wins. -/
def roundOutcome (userRoll compRoll : Int) : Outcome :=
  if userRoll > compRoll then Outcome.userWins else Outcome.compWins

/-- The fairness-combination expression `(a + b) % m` of `playRound`
(game.js lines 143 and 168), over JS integers: the JS `%` operator is the
truncated-division remainder, `Int.tmod`. -/
def combine (a b m : Int) : Int :=
  Int.tmod (a + b) m

/-- A commitment of the commit-reveal protocol: the fields `this.key`,
the committed value, and `this.hmac` of `DiceGame` (game.js lines 58-60 and
125-127 and 150-152). -/
structure Commitment where
  key : String
  value : Nat
  tag : String
deriving DecidableEq, Repr

/-- Explicit random source: a stream of secret keys
(`crypto.randomBytes(32).toString('hex')`), a stream of raw 32-bit draws
(`crypto.randomBytes(4).readUInt32BE()`), and a stream of `Math.random`
index draws. -/
structure Rng where
  keys : List String
  raws : List Nat
  rolls : List Nat
deriving DecidableEq, Repr

/-- Draw the next secret key (`FairRandom.generateRandomKey`). -/
def Rng.nextKey (g : Rng) : String × Rng :=
  (g.keys.headD "", ⟨g.keys.tail, g.raws, g.rolls⟩)

/-- Draw the next raw value; `FairRandom.generateRandomNumber(range)` is the
raw draw reduced modulo `range` (game.js lines 22-24). -/
def Rng.nextRaw (g : Rng) : Nat × Rng :=
  (g.raws.headD 0, ⟨g.keys, g.raws.tail, g.rolls⟩)

/-- Draw the next `Math.random` index value. -/
def Rng.nextRoll (g : Rng) : Nat × Rng :=
  (g.rolls.headD 0, ⟨g.keys, g.raws, g.rolls.tail⟩)

/-- Consume `n` `Math.random` draws (the help table of `displayHelp` runs
`calculateWinProbability` over 3 dice pairs with 10000 trials of 2 rolls
each, a read-only query that only consumes randomness). -/
def Rng.dropRolls (g : Rng) (n : Nat) : Rng :=
  ⟨g.keys, g.raws, g.rolls.drop n⟩

/-- Produce a fresh commitment for `range`: a fresh key, a fresh raw draw
reduced modulo `range`, and the HMAC of the decimal string of the value
keyed by the key (game.js lines 58-60, 125-127, 150-152;
`compChoice.toString()` is the decimal representation). -/
def commitDraw (hmacF : String → String → String) (range : Nat) (g : Rng) :
    Commitment × Rng :=
  let k := g.nextKey
  let r := k.2.nextRaw
  let v := r.1 % range
  (⟨k.1, v, hmacF k.1 (Nat.repr v)⟩, r.2)

/-- Interactive phases of the session: the first-move guess prompt
(`promptUser`), the dice-selection prompt (`chooseDice`), the computer
sub-round prompt and the user sub-round prompt of `playRound`, and the
terminal state (readline closed). -/
inductive Phase where
  | firstMove
  | diceSelection
  | rollComp
  | rollUser
  | done
deriving DecidableEq, Repr

/-- A JS number that is either `NaN` or a nonnegative integer (the only
numbers flowing out of `parseIntegerInput` into the fair-result
computation). -/
inductive JsNum where
  | nan
  | num (n : Nat)
deriving DecidableEq, Repr

/-- The mutable state of a `DiceGame` session: current prompt phase, the
remaining `this.diceSet` array, the assigned `this.userDice` and
`this.compDice`, the pending commitment (`this.key`, committed value,
`this.hmac`), the disclosed fair-result values, the produced rolls, the
final outcome, and the random source. -/
structure Session where
  phase : Phase
  diceSet : List Dice
  userDice? : Option Dice
  compDice? : Option Dice
  pending? : Option Commitment
  fairComp? : Option JsNum
  fairUser? : Option JsNum
  compRoll? : Option Int
  userRoll? : Option Int
  outcome? : Option Outcome
  rng : Rng
deriving DecidableEq, Repr

/-- Fallback die (never reached from a session started by `startGame`; the
JS code would dereference `undefined` instead). -/
def dfltDice : Dice := ⟨[0]⟩

/-- Fallback commitment (never reached from a session started by
`startGame`). -/
def dfltCommitment : Commitment := ⟨"", 0, ""⟩

/-- Entry into (or retry of) `playRound` (game.js lines 123-128): announce
the computer sub-round, draw a fresh key and a fresh random value in
`[0, 6)`, publish its HMAC, and prompt.  The round's locals start over, so
any previously produced computer roll and fair result are dropped. -/
def enterRoll (hmacF : String → String → String) (s : Session) : Session :=
  let c := commitDraw hmacF 6 s.rng
  { s with phase := Phase.rollComp, pending? := some c.1, fairComp? := none,
           compRoll? := none, rng := c.2 }

/-- One interactive step of the session: deliver one line of input to the
prompt of the current phase.

* `firstMove` is `promptUser` (game.js lines 70-87): `X`/`x` exits, `?`
  prints the help table (consuming 60000 `Math.random` draws, otherwise
  read-only) and re-prompts, `0`/`1` runs `resolveFirstMove` — which only
  prints the reveal and proceeds to `chooseDice` regardless of the guess —
  and anything else re-prompts unchanged.
* `diceSelection` is `chooseDice` (game.js lines 97-116): `X`/`x` exits;
  `isValidDiceChoice` accepts when `parseInt(answer)` is not `NaN` and
  indexes an existing element; on accept the chosen die is spliced out of
  `diceSet`, `compDice` becomes the new `diceSet[0]` (assigned, not
  removed), and `playRound` starts; otherwise re-prompt unchanged.
* `rollComp` is the first `playRound` question (game.js lines 130-147):
  `X`/`x` exits; a `null` parse re-runs `playRound` (drawing a fresh
  commitment); otherwise the fair result `(compRandom + userRandom) % 6`
  is disclosed, the computer die is rolled by an independent draw, and the
  user sub-round commitment is drawn.
* `rollUser` is the second question (game.js lines 155-180): `X`/`x`
  exits; a `null` parse re-runs `playRound` from the top (fresh commitment,
  the computer roll of this round is dropped); otherwise the user fair
  result is disclosed, the user die is rolled by an independent draw, and
  the outcome is decided.
* `done` has no prompt; input is ignored. -/
def step (hmacF : String → String → String) (s : Session) (input : String) : Session :=
  match s.phase with
  | Phase.firstMove =>
    if input = "X" ∨ input = "x" then { s with phase := Phase.done }
    else if input = "?" then { s with rng := s.rng.dropRolls 60000 }
    else if input = "0" ∨ input = "1" then { s with phase := Phase.diceSelection }
    else s
  | Phase.diceSelection =>
    if input = "X" ∨ input = "x" then { s with phase := Phase.done }
    else
      match jsParseInt? input with
      | some i =>
        if 0 ≤ i ∧ i.toNat < s.diceSet.length then
          let u := s.diceSet.getD i.toNat dfltDice
          let rest := s.diceSet.eraseIdx i.toNat
          enterRoll hmacF
            { s with diceSet := rest, userDice? := some u, compDice? := rest.head? }
        else s
      | none => s
  | Phase.rollComp =>
    if input = "X" ∨ input = "x" then { s with phase := Phase.done }
    else
      match parseIntegerInput input with
      | ParseResult.null => enterRoll hmacF s
      | r =>
        let c := s.pending?.getD dfltCommitment
        let fair : JsNum := match r with
          | ParseResult.val u => JsNum.num ((c.value + u) % 6)
          | _ => JsNum.nan
        let rr := s.rng.nextRoll
        let croll := (s.compDice?.getD dfltDice).roll rr.1
        let c2 := commitDraw hmacF 6 rr.2
        { s with phase := Phase.rollUser, pending? := some c2.1,
                 fairComp? := some fair, compRoll? := some croll, rng := c2.2 }
  | Phase.rollUser =>
    if input = "X" ∨ input = "x" then { s with phase := Phase.done }
    else
      match parseIntegerInput input with
      | ParseResult.null => enterRoll hmacF s
      | r =>
        let c := s.pending?.getD dfltCommitment
        let fair : JsNum := match r with
          | ParseResult.val u => JsNum.num ((c.value + u) % 6)
          | _ => JsNum.nan
        let rr := s.rng.nextRoll
        let uroll := (s.userDice?.getD dfltDice).roll rr.1
        { s with phase := Phase.done, fairUser? := some fair, userRoll? := some uroll,
                 outcome? := some (roundOutcome uroll (s.compRoll?.getD 0)), rng := rr.2 }
  | Phase.done => s

/-- Errors a session start can produce: the validation failure message of
`startGame` (game.js lines 40-44), the `TypeError` thrown by calling
`.split` on a non-string in `validateDiceInput`, and the dice-configuration
error of the `Dice` constructor. -/
inductive JsError where
  | validationError
  | typeError
  | configError
deriving DecidableEq, Repr

/-- `DiceGame.startGame` (game.js lines 36-63) for a string argument:
validate the dice input (rejecting with a validation error and entering no
further state), construct the hardcoded dice preset, draw the first-move
commitment for range 2, disclose its HMAC, and prompt for the guess. -/
def startGame (hmacF : String → String → String) (g : Rng) (diceInput : String) :
    Except JsError Session :=
  if validateDiceInput diceInput then
    let c := commitDraw hmacF 2 g
    Except.ok
      { phase := Phase.firstMove, diceSet := presetDice, userDice? := none,
        compDice? := none, pending? := some c.1, fairComp? := none,
        fairUser? := none, compRoll? := none, userRoll? := none,
        outcome? := none, rng := c.2 }
  else Except.error JsError.validationError

/-- Program entry (game.js lines 243-247): `process.argv[2]` may be absent
(`undefined`, modelled as `none`), in which case `validateDiceInput` calls
`split` on `undefined` and throws an uncaught `TypeError` before any
validation message is printed. -/
def startGameTop (hmacF : String → String → String) (g : Rng) (argv2 : Option String) :
    Except JsError Session :=
  match argv2 with
  | none => Except.error JsError.typeError
  | some s => startGame hmacF g s

/-- Deliver a list of input lines, one step at a time. -/
def stepList (hmacF : String → String → String) (s : Session) : List String → Session
  | [] => s
  | i :: is => stepList hmacF (step hmacF s i) is

/-- A session state reachable from a successful `startGame` by some inputs. -/
def Reachable (hmacF : String → String → String) (s : Session) : Prop :=
  ∃ (g : Rng) (diceInput : String) (s0 : Session) (inputs : List String),
    startGame hmacF g diceInput = Except.ok s0 ∧ s = stepList hmacF s0 inputs

/-- `DicePool.takeByIndex`: the guarded splice of `chooseDice`
(game.js lines 106-110) as a pool operation — remove and return the element
at index `i`, failing (out of range) when `i` does not index the remaining
pool. -/
def takeByIndex (pool : List Dice) (i : Nat) : Option (Dice × List Dice) :=
  if i < pool.length then some (pool.getD i dfltDice, pool.eraseIdx i) else none

/-- A whole-session sequence of `takeByIndex` calls: failed calls leave the
pool unchanged, successful calls accumulate the returned die.  Returns the
list of returned dice and the final pool. -/
def takeSeq (pool : List Dice) : List Nat → List Dice × List Dice
  | [] => ([], pool)
  | i :: is =>
    match takeByIndex pool i with
    | none => takeSeq pool is
    | some dp =>
      let r := takeSeq dp.2 is
      (dp.1 :: r.1, r.2)

/-- Concrete stand-in for the external HMAC function, used for concrete
runs (any function can be substituted; the theorems quantify over it). -/
def hmacF0 : String → String → String :=
  fun k m => String.append (String.append k "#") m

/-- Concrete random source for concrete runs. -/
def rng0 : Rng :=
  ⟨["kA", "kB", "kC", "kD", "kE", "kF"], [0, 1, 2, 3, 4, 5], [0, 1, 2, 3, 4, 5]⟩

/-- Fallback session for the error branch of a concrete `startGame` call
(never taken on the inputs used below). -/
def emptySession : Session :=
  ⟨Phase.done, [], none, none, none, none, none, none, none, none, ⟨[], [], []⟩⟩

/-- Concrete session right after `startGame` on valid dice input. -/
def exS0 : Session :=
  match startGame hmacF0 rng0 "1,2,3" with
  | Except.ok s => s
  | Except.error _ => emptySession

/-- After guessing `0` at the first-move prompt: dice selection. -/
def exS1 : Session := step hmacF0 exS0 "0"

/-- After choosing die `0`: computer roll sub-round, commitment pending. -/
def exS2 : Session := step hmacF0 exS1 "0"

/-- After contributing `3` to the computer sub-round: user roll sub-round,
the computer roll has been produced. -/
def exS3 : Session := step hmacF0 exS2 "3"

/-- C2: when both roll values are produced, the user wins exactly when the
user's roll is strictly greater than the computer's; in every other case,
and in particular on equal rolls, the comparison falls through to a
computer win. -/
theorem roundOutcome_strict_gt (userRoll compRoll : Int) :
    (roundOutcome userRoll compRoll = Outcome.userWins ↔ compRoll < userRoll) ∧
    (roundOutcome userRoll compRoll = Outcome.compWins ↔ userRoll ≤ compRoll) := by
  unfold roundOutcome
  constructor
  · split
    · simp; omega
    · simp; omega
  · split
    · simp; omega
    · simp; omega

/-- C4 counterexample: over all integers, the program's fair-result
expression is JS `%`, the truncated remainder, so at `a = -1`, `b = 0`,
`modulus = 6` the result is `-1`, which does not lie in `[0, 6)`; the
claim's range property fails as stated for arbitrary integers. -/
theorem combine_neg_escapes_range :
    combine (-1) 0 6 = -1 ∧ ¬ (0 ≤ combine (-1) 0 6 ∧ combine (-1) 0 6 < 6) := by
  decide

/-- C4 amended: `combine` is commutative for all integers and any modulus,
and for nonnegative arguments (the only ones the program produces: a
committed value in `[0, 6)` and a validated contribution in `[0, 5]`) the
result lies in `[0, modulus)`. -/
theorem combine_comm_range (a b m : Int) (hm : 0 < m) :
    combine a b m = combine b a m ∧
    (0 ≤ a → 0 ≤ b → 0 ≤ combine a b m ∧ combine a b m < m) := by
  refine ⟨by unfold combine; rw [Int.add_comm], fun ha hb => ?_⟩
  exact ⟨Int.tmod_nonneg m (by omega), Int.tmod_lt_of_pos (a + b) hm⟩

/-- Witness for C4 at `a = 2`, `b = 3`, `m = 6`. -/
theorem combine_comm_range_witness :
    combine 2 3 6 = combine 3 2 6 ∧ (0 ≤ combine 2 3 6 ∧ combine 2 3 6 < 6) := by
  have h := combine_comm_range 2 3 6 (by decide)
  exact ⟨h.1, h.2 (by decide) (by decide)⟩

/-- C10: with no command-line argument the startup input is `undefined`;
`validateDiceInput` calls `split` on it and throws an uncaught `TypeError`,
so the session crashes instead of terminating through the validation-error
message path (which is a distinct error). -/
theorem startGameTop_undefined_crashes (hmacF : String → String → String) (g : Rng) :
    startGameTop hmacF g none = Except.error JsError.typeError ∧
    JsError.typeError ≠ JsError.validationError :=
  ⟨rfl, by decide⟩

/-- Any pending commitment assigned by a `step` is either carried over
unchanged or freshly produced by `commitDraw` for range 6. -/
theorem step_pending_cases (hmacF : String → String → String) (s : Session) (input : String) :
    (step hmacF s input).pending? = s.pending? ∨
    ∃ g : Rng, (step hmacF s input).pending? = some (commitDraw hmacF 6 g).1 := by
  unfold step enterRoll
  cases s.phase <;> dsimp only <;>
    repeat' first
      | (left; rfl)
      | (right; exact ⟨_, rfl⟩)
      | split

/-- The session produced by a successful `startGame` carries a pending
commitment whose tag is the HMAC of its key and decimal value. -/
theorem startGame_pending_tag (hmacF : String → String → String) (g : Rng)
    (di : String) (s0 : Session)
    (h : startGame hmacF g di = Except.ok s0) :
    ∀ c, s0.pending? = some c → hmacF c.key (Nat.repr c.value) = c.tag := by
  unfold startGame at h
  split at h
  · injection h with h'
    subst h'
    intro c hc
    injection hc with hc'
    subst hc'
    rfl
  · cases h

/-- The tag invariant of the pending commitment is preserved by any list of
input steps. -/
theorem stepList_pending_tag (hmacF : String → String → String) (inputs : List String) :
    ∀ s : Session,
      (∀ c, s.pending? = some c → hmacF c.key (Nat.repr c.value) = c.tag) →
      ∀ c, (stepList hmacF s inputs).pending? = some c →
        hmacF c.key (Nat.repr c.value) = c.tag := by
  induction inputs with
  | nil => intro s h c hc; exact h c hc
  | cons i is ih =>
    intro s h c hc
    refine ih (step hmacF s i) ?_ c hc
    intro c' hc'
    rcases step_pending_cases hmacF s i with he | ⟨g, he⟩
    · exact h c' (he ▸ hc')
    · rw [he] at hc'
      injection hc' with h2
      subst h2
      rfl

/-- `takeByIndex` succeeds exactly on valid indices into the remaining
pool. -/
theorem takeByIndex_isSome_iff (pool : List Dice) (i : Nat) :
    (takeByIndex pool i).isSome ↔ i < pool.length := by
  unfold takeByIndex
  split <;> simp_all

/-- Anatomy of a successful `takeByIndex`: the index was valid, the die at
that position is returned, and the new pool is the old one with that
position erased. -/
theorem takeByIndex_some_anatomy (pool : List Dice) (i : Nat) (d : Dice) (p' : List Dice)
    (h : takeByIndex pool i = some (d, p')) :
    i < pool.length ∧ d = pool.getD i dfltDice ∧ p' = pool.eraseIdx i := by
  unfold takeByIndex at h
  split at h
  · injection h with h'
    refine ⟨by assumption, ?_, ?_⟩ <;> cases h' <;> rfl
  · cases h

/-- Erasing a valid index shrinks the pool by exactly one. -/
theorem eraseIdx_length (pool : List Dice) (i : Nat) (h : i < pool.length) :
    (pool.eraseIdx i).length + 1 = pool.length := by
  rw [List.length_eraseIdx_of_lt h]
  omega

/-- In a duplicate-free pool, an element removed by index does not occur in
the remaining pool. -/
theorem getD_not_mem_eraseIdx :
    ∀ (l : List Dice) (i : Nat), i < l.length → l.Nodup →
      l.getD i dfltDice ∉ l.eraseIdx i := by
  intro l
  induction l with
  | nil => intro i h; simp at h
  | cons a t ih =>
    intro i h hnd
    have hnd' := List.nodup_cons.mp hnd
    cases i with
    | zero =>
      simp [List.eraseIdx]
      exact hnd'.1
    | succ j =>
      have hj : j < t.length := by simpa using h
      have hmem : t.getD j dfltDice ∈ t := by
        rw [List.getD_eq_getElem t dfltDice hj]
        exact List.getElem_mem hj
      rw [List.getD_cons_succ, List.eraseIdx_cons_succ, List.mem_cons]
      rintro (heq | hmem2)
      · exact hnd'.1 (heq ▸ hmem)
      · exact ih j hj hnd'.2 hmem2

/-- Every die returned during a session of `takeByIndex` calls came from
the starting pool. -/
theorem takeSeq_taken_mem :
    ∀ (is : List Nat) (pool : List Dice) (x : Dice),
      x ∈ (takeSeq pool is).1 → x ∈ pool := by
  intro is
  induction is with
  | nil => intro pool x hx; simp [takeSeq] at hx
  | cons i is ih =>
    intro pool x hx
    unfold takeSeq at hx
    cases htake : takeByIndex pool i with
    | none => rw [htake] at hx; exact ih pool x hx
    | some dp =>
      rw [htake] at hx
      obtain ⟨hlt, hd, hp⟩ := takeByIndex_some_anatomy pool i dp.1 dp.2 (by rw [htake])
      rcases List.mem_cons.mp hx with rfl | hx2
      · rw [hd, List.getD_eq_getElem pool dfltDice hlt]
        exact List.getElem_mem hlt
      · have := ih dp.2 x hx2
        rw [hp] at this
        exact (List.eraseIdx_sublist pool i).mem this

/-- Across a whole session, the number of returned dice plus the remaining
pool size equals the starting pool size (each success removes exactly
one die). -/
theorem takeSeq_length :
    ∀ (is : List Nat) (pool : List Dice),
      (takeSeq pool is).1.length + (takeSeq pool is).2.length = pool.length := by
  intro is
  induction is with
  | nil => intro pool; simp [takeSeq]
  | cons i is ih =>
    intro pool
    unfold takeSeq
    cases htake : takeByIndex pool i with
    | none => exact ih pool
    | some dp =>
      obtain ⟨hlt, hd, hp⟩ := takeByIndex_some_anatomy pool i dp.1 dp.2 (by rw [htake])
      have h1 := ih dp.2
      have h2 : dp.2.length + 1 = pool.length := by
        rw [hp]; exact eraseIdx_length pool i hlt
      simp only [List.length_cons]
      omega

/-- Across a whole session starting from a duplicate-free pool, no die is
ever returned twice. -/
theorem takeSeq_nodup :
    ∀ (is : List Nat) (pool : List Dice), pool.Nodup → (takeSeq pool is).1.Nodup := by
  intro is
  induction is with
  | nil => intro pool h; simp [takeSeq]
  | cons i is ih =>
    intro pool hnd
    unfold takeSeq
    cases htake : takeByIndex pool i with
    | none => exact ih pool hnd
    | some dp =>
      obtain ⟨hlt, hd, hp⟩ := takeByIndex_some_anatomy pool i dp.1 dp.2 (by rw [htake])
      have hnd2 : dp.2.Nodup := by
        rw [hp]; exact (List.eraseIdx_sublist pool i).nodup hnd
      refine List.nodup_cons.mpr ⟨?_, ih dp.2 hnd2⟩
      intro hmem
      have hin : dp.1 ∈ dp.2 := takeSeq_taken_mem is dp.2 dp.1 hmem
      rw [hd, hp] at hin
      exact getD_not_mem_eraseIdx pool i hlt hnd hin

/-- C1 counterexample: in a concrete reachable user sub-round state
(`exS3`, reached by startup `"1,2,3"`, guess `"0"`, die choice `"0"`,
contribution `"3"`), the invalid input `"abc"` is rejected and the
sub-round retried, but the pending commitment does not remain the same —
a fresh commitment is drawn — and the computer roll already produced in
the round is discarded. -/
theorem roll_retry_changes_pending_commitment :
    exS3.phase = Phase.rollUser ∧
    parseIntegerInput "abc" = ParseResult.null ∧
    exS3.compRoll? = some 1 ∧
    (step hmacF0 exS3 "abc").phase = Phase.rollComp ∧
    (step hmacF0 exS3 "abc").pending? ≠ exS3.pending? ∧
    (step hmacF0 exS3 "abc").compRoll? = none := by
  decide

/-- C1 amended: at either roll-exchange prompt, an input rejected by
`parseIntegerInput` (and not the exit command) restarts the round at the
computer sub-round: the phase stays in the roll exchange, the pool and
both assigned dice are unchanged, but the pending commitment is replaced
by a freshly drawn one and any computer roll already produced in the round
is discarded. -/
theorem invalid_roll_input_restarts (hmacF : String → String → String) (s : Session)
    (input : String)
    (hph : s.phase = Phase.rollComp ∨ s.phase = Phase.rollUser)
    (hX : input ≠ "X") (hx : input ≠ "x")
    (hp : parseIntegerInput input = ParseResult.null) :
    (step hmacF s input).phase = Phase.rollComp ∧
    (step hmacF s input).diceSet = s.diceSet ∧
    (step hmacF s input).userDice? = s.userDice? ∧
    (step hmacF s input).compDice? = s.compDice? ∧
    (step hmacF s input).pending? = some (commitDraw hmacF 6 s.rng).1 ∧
    (step hmacF s input).compRoll? = none := by
  rcases hph with h | h <;> unfold step <;> rw [h] <;>
    simp [hX, hx, hp, enterRoll]

/-- C1 witness: the amended statement applied in the concrete user
sub-round state `exS3` with input `"abc"`. -/
theorem invalid_roll_input_restarts_witness :
    (step hmacF0 exS3 "abc").phase = Phase.rollComp ∧
    (step hmacF0 exS3 "abc").pending? = some (commitDraw hmacF0 6 exS3.rng).1 ∧
    (step hmacF0 exS3 "abc").compRoll? = none := by
  have h := invalid_roll_input_restarts hmacF0 exS3 "abc" (Or.inr (by decide))
    (by decide) (by decide) (by decide)
  exact ⟨h.1, h.2.2.2.2.1, h.2.2.2.2.2⟩

/-- C3: in either roll sub-round, the combined fair value is computed and
stored for disclosure, but the produced roll is determined by the assigned
die and the independent roll draw of the random source alone: two steps
from the same state that differ only in the user's valid contribution
produce the same roll value. -/
theorem fair_value_decorative (hmacF : String → String → String)
    (u1 u2 : String) (n1 n2 : Nat)
    (h1 : parseIntegerInput u1 = ParseResult.val n1)
    (h2 : parseIntegerInput u2 = ParseResult.val n2) :
    (∀ s : Session, s.phase = Phase.rollComp →
      (step hmacF s u1).compRoll? = (step hmacF s u2).compRoll? ∧
      (step hmacF s u1).compRoll? =
        some ((s.compDice?.getD dfltDice).roll (s.rng.rolls.headD 0)) ∧
      (step hmacF s u1).fairComp? =
        some (JsNum.num (((s.pending?.getD dfltCommitment).value + n1) % 6))) ∧
    (∀ s : Session, s.phase = Phase.rollUser →
      (step hmacF s u1).userRoll? = (step hmacF s u2).userRoll? ∧
      (step hmacF s u1).userRoll? =
        some ((s.userDice?.getD dfltDice).roll (s.rng.rolls.headD 0)) ∧
      (step hmacF s u1).fairUser? =
        some (JsNum.num (((s.pending?.getD dfltCommitment).value + n1) % 6))) := by
  have hX1 : u1 ≠ "X" := by
    rintro rfl
    rw [show parseIntegerInput "X" = ParseResult.null from by decide] at h1
    simp at h1
  have hx1 : u1 ≠ "x" := by
    rintro rfl
    rw [show parseIntegerInput "x" = ParseResult.null from by decide] at h1
    simp at h1
  have hX2 : u2 ≠ "X" := by
    rintro rfl
    rw [show parseIntegerInput "X" = ParseResult.null from by decide] at h2
    simp at h2
  have hx2 : u2 ≠ "x" := by
    rintro rfl
    rw [show parseIntegerInput "x" = ParseResult.null from by decide] at h2
    simp at h2
  constructor <;> intro s hph <;> unfold step <;> rw [hph] <;>
    simp [hX1, hx1, hX2, hx2, h1, h2, Rng.nextRoll]

/-- C3 witness: in the concrete computer sub-round state `exS2`, the
contributions `"3"` and `"5"` yield the same computer roll, drawn from the
assigned die and the roll stream. -/
theorem fair_value_decorative_witness :
    (step hmacF0 exS2 "3").compRoll? = (step hmacF0 exS2 "5").compRoll? ∧
    (step hmacF0 exS2 "3").compRoll? =
      some ((exS2.compDice?.getD dfltDice).roll (exS2.rng.rolls.headD 0)) := by
  have h := (fair_value_decorative hmacF0 "3" "5" 3 5 (by decide) (by decide)).1
    exS2 (by decide)
  exact ⟨h.1, h.2.1⟩

/-- C5: every pending commitment of a reachable session state has a tag
that equals the HMAC, keyed by the commitment's secret key, of the decimal
textual representation of the committed value — so recomputing the MAC
from the revealed secret and value reproduces the disclosed tag. -/
theorem pending_commitment_tag_reproducible (hmacF : String → String → String)
    (s : Session) (c : Commitment)
    (hr : Reachable hmacF s) (hp : s.pending? = some c) :
    hmacF c.key (Nat.repr c.value) = c.tag := by
  obtain ⟨g, di, s0, inputs, h0, rfl⟩ := hr
  exact stepList_pending_tag hmacF inputs s0 (startGame_pending_tag hmacF g di s0 h0) c hp

/-- C5 witness: the commitment pending right after the concrete
`startGame` run `exS0`. -/
theorem pending_commitment_tag_reproducible_witness :
    hmacF0 "kA" (Nat.repr 0) = "kA#0" :=
  pending_commitment_tag_reproducible hmacF0 exS0 ⟨"kA", 0, "kA#0"⟩
    ⟨rng0, "1,2,3", exS0, [], rfl, rfl⟩ (by decide)

/-- C6: `takeByIndex` succeeds exactly on valid indices into the remaining
pool, a success removes and returns the die at that position with the pool
size decreasing by exactly one, and across a whole session over a
duplicate-free pool the taken dice account exactly for the shrinkage and
no die is ever returned twice. -/
theorem takeByIndex_pool_invariants (pool : List Dice) (is : List Nat) :
    (∀ i, (takeByIndex pool i).isSome ↔ i < pool.length) ∧
    (∀ i d p', takeByIndex pool i = some (d, p') →
      d = pool.getD i dfltDice ∧ p' = pool.eraseIdx i ∧
      p'.length + 1 = pool.length ∧ (pool.Nodup → d ∉ p')) ∧
    ((takeSeq pool is).1.length + (takeSeq pool is).2.length = pool.length) ∧
    (pool.Nodup → (takeSeq pool is).1.Nodup) := by
  refine ⟨takeByIndex_isSome_iff pool, ?_, takeSeq_length is pool, takeSeq_nodup is pool⟩
  intro i d p' h
  obtain ⟨hlt, hd, hp⟩ := takeByIndex_some_anatomy pool i d p' h
  refine ⟨hd, hp, by rw [hp]; exact eraseIdx_length pool i hlt, fun hnd => ?_⟩
  rw [hd, hp]
  exact getD_not_mem_eraseIdx pool i hlt hnd

/-- C6 witness: the preset pool with the call sequence `[0, 0, 5]` (two
successes and one out-of-range failure). -/
theorem takeByIndex_pool_invariants_witness :
    (takeSeq presetDice [0, 0, 5]).1.Nodup ∧
    (takeSeq presetDice [0, 0, 5]).1.length +
      (takeSeq presetDice [0, 0, 5]).2.length = presetDice.length ∧
    (takeByIndex presetDice 1).isSome := by
  have h := takeByIndex_pool_invariants presetDice [0, 0, 5]
  exact ⟨h.2.2.2 (by decide), h.2.2.1, (h.1 1).mpr (by decide)⟩

/-- C7 counterexample: in the concrete dice-selection state `exS1` with
the preset pool, the human choice `"0"` assigns the claimed dice to both
parties, but the `diceSet` array still holds two dice afterwards — the
computer's die is assigned by reference and never removed — so it is not
the case that exactly one die remains in the pool. -/
theorem comp_die_not_removed_from_pool :
    exS1.phase = Phase.diceSelection ∧
    exS1.diceSet = presetDice ∧
    (step hmacF0 exS1 "0").userDice? = some ⟨[2, 2, 4, 4, 9, 9]⟩ ∧
    (step hmacF0 exS1 "0").compDice? = some ⟨[1, 1, 6, 6, 8, 8]⟩ ∧
    (step hmacF0 exS1 "0").diceSet.length = 2 ∧
    ¬ (step hmacF0 exS1 "0").diceSet.length = 1 := by
  decide

/-- C7 amended: on a valid selection the human receives the die at the
chosen index, the computer is deterministically assigned the first die of
the remaining pool in pool order (never randomly), and the remaining pool
is the original one with only the human's die removed — the computer's die
stays in the pool array, so two entries remain of which exactly one is
unassigned. -/
theorem chooseDice_assigns_first_remaining (hmacF : String → String → String)
    (s : Session) (input : String) (i : Int)
    (hph : s.phase = Phase.diceSelection)
    (hX : input ≠ "X") (hx : input ≠ "x")
    (hpi : jsParseInt? input = some i)
    (hok : 0 ≤ i ∧ i.toNat < s.diceSet.length) :
    (step hmacF s input).userDice? = some (s.diceSet.getD i.toNat dfltDice) ∧
    (step hmacF s input).compDice? = (s.diceSet.eraseIdx i.toNat).head? ∧
    (step hmacF s input).diceSet = s.diceSet.eraseIdx i.toNat ∧
    (step hmacF s input).phase = Phase.rollComp := by
  unfold step
  rw [hph]
  simp [hX, hx, hpi, hok, enterRoll]

/-- C7 witness: the spec scenario — preset pool, human takes index 0: the
human holds `[2,2,4,4,9,9]`, the computer holds `[1,1,6,6,8,8]`, and the
pool retains the computer's die plus `[3,3,5,5,7,7]`. -/
theorem chooseDice_assigns_first_remaining_witness :
    (step hmacF0 exS1 "0").userDice? = some ⟨[2, 2, 4, 4, 9, 9]⟩ ∧
    (step hmacF0 exS1 "0").compDice? = some ⟨[1, 1, 6, 6, 8, 8]⟩ ∧
    (step hmacF0 exS1 "0").diceSet = [⟨[1, 1, 6, 6, 8, 8]⟩, ⟨[3, 3, 5, 5, 7, 7]⟩] := by
  have h := chooseDice_assigns_first_remaining hmacF0 exS1 "0" 0 (by decide)
    (by decide) (by decide) (by decide) (by decide)
  refine ⟨?_, ?_, ?_⟩
  · rw [h.1]; decide
  · rw [h.2.1]; decide
  · rw [h.2.2.1]; decide

/-- C8: any startup input whose comma-separated parts contain fewer than 3
values that `parseInt` to a non-`NaN` integer is rejected by `startGame`
with the validation error: no session state is returned, so no dice pool
is constructed and no commitment is generated. -/
theorem startGame_rejects_short_input (hmacF : String → String → String) (g : Rng)
    (input : String)
    (h : (splitOnComma input.data).countP
        (fun p => (jsParseIntL? (jsTrim p)).isSome) < 3) :
    startGame hmacF g input = Except.error JsError.validationError := by
  have hv : validateDiceInput input = false := by
    unfold validateDiceInput
    cases hall : ((splitOnComma input.data).map
        (fun p => jsParseIntL? (jsTrim p))).all Option.isSome with
    | false => simp [hall]
    | true =>
      have hforall : ∀ p ∈ splitOnComma input.data, (jsParseIntL? (jsTrim p)).isSome := by
        intro p hp
        exact List.all_eq_true.mp hall (jsParseIntL? (jsTrim p)) (List.mem_map_of_mem _ hp)
      have hcnt : (splitOnComma input.data).countP
          (fun p => (jsParseIntL? (jsTrim p)).isSome) = (splitOnComma input.data).length :=
        List.countP_eq_length.mpr hforall
      have hlen : (splitOnComma input.data).length < 3 := by omega
      simp [hall, List.length_map]
      omega
  simp [startGame, hv]

/-- C8 witness: the spec scenario, startup input `"1,2"` (two values). -/
theorem startGame_rejects_short_input_witness :
    startGame hmacF0 rng0 "1,2" = Except.error JsError.validationError :=
  startGame_rejects_short_input hmacF0 rng0 "1,2" (by decide)

/-- C9 counterexample: at the concrete dice-selection state `exS1`,
`"1abc"` is not rejected — `parseInt` takes its integer prefix `1`, the
phase transitions and a die is removed — and `"0.5"` is likewise accepted
as index `0`, contradicting the claim that such non-integer text re-issues
the prompt with no die removed. -/
theorem chooseDice_accepts_integer_prefixed_text :
    exS1.phase = Phase.diceSelection ∧
    (step hmacF0 exS1 "1abc").phase ≠ Phase.diceSelection ∧
    (step hmacF0 exS1 "1abc").diceSet.length + 1 = exS1.diceSet.length ∧
    (step hmacF0 exS1 "1abc").userDice? = some ⟨[1, 1, 6, 6, 8, 8]⟩ ∧
    (step hmacF0 exS1 "0.5").userDice? = some ⟨[2, 2, 4, 4, 9, 9]⟩ := by
  decide

/-- C9 amended: at the dice-selection prompt, an input (other than the
exit command) whose `parseInt` prefix-parse yields `NaN` or an integer
that does not index the remaining pool is rejected: the session state is
completely unchanged and the same prompt is re-issued.  (Inputs with a
valid integer prefix, such as `"1abc"` or `"0.5"`, are instead accepted as
that prefix index.) -/
theorem chooseDice_rejects_invalid_index (hmacF : String → String → String)
    (s : Session) (input : String)
    (hph : s.phase = Phase.diceSelection)
    (hX : input ≠ "X") (hx : input ≠ "x")
    (hbad : ∀ i : Int, jsParseInt? input = some i →
      ¬ (0 ≤ i ∧ i.toNat < s.diceSet.length)) :
    step hmacF s input = s := by
  unfold step
  rw [hph]
  cases hpi : jsParseInt? input with
  | none => simp [hX, hx, hpi]
  | some i => simp [hX, hx, hpi, hbad i hpi]

/-- C9 witness: the out-of-range index `"9"` at the concrete
dice-selection state `exS1` leaves the state unchanged. -/
theorem chooseDice_rejects_invalid_index_witness :
    step hmacF0 exS1 "9" = exS1 := by
  refine chooseDice_rejects_invalid_index hmacF0 exS1 "9" (by decide)
    (by decide) (by decide) ?_
  intro i hi
  rw [show jsParseInt? "9" = some 9 from by decide] at hi
  cases hi
  decide
